import Mathlib

/-!
Shallow embedding of the auction timing / bidding core of the
`b-subasta-fruta` repository (Django backend, `src/backend/subastas/`).

Conventions of the embedding:
* timestamps are integers (seconds); `timezone.now()` becomes an explicit
  `ahora : Int` argument;
* money amounts (`DecimalField`) are integers (e.g. cents) — the code only
  compares and copies them, so any linearly ordered carrier is faithful;
* a `Subasta` row carries exactly the fields the audited code reads or
  writes; the bid table of one auction is a `List Oferta` in storage order
  (primary-key / insertion order);
* Django query sets are modelled as list operations; `order_by(-monto)
  .first()` is modelled as the first element of maximal `monto` in storage
  order (SQL leaves the order of ties unspecified; picking the earliest
  stored row is one refinement of that);
* side channels (WebSocket notifications, the scheduler wake-up signal)
  are recorded as an explicit list of `Efecto` values emitted by an
  operation, so that "operation X never performs side effect E" is a
  statement about the code, not about the runtime.
-/

namespace SubastaFruta

/-- The four declared auction states of `Subasta.ESTADO_CHOICES`
(`src/backend/subastas/models.py`). -/
inductive Estado where
  | PROGRAMADA
  | ACTIVA
  | FINALIZADA
  | CANCELADA
deriving DecidableEq, Repr

/-- One row of the `Subasta` model, restricted to the fields the audited
code paths read or write (`src/backend/subastas/models.py`). -/
structure Subasta where
  fecha_hora_inicio : Int
  fecha_hora_fin : Int
  precio_base : Int
  estado : Estado
  extensiones_realizadas : Nat
deriving DecidableEq, Repr

/-- One row of the `Oferta` model (`src/backend/subastas/models.py`):
primary key, amount, winning flag. -/
structure Oferta where
  id : Nat
  monto : Int
  es_ganadora : Bool
deriving DecidableEq, Repr

/-- The singleton `ConfiguracionSubasta` row
(`src/backend/subastas/models.py`): the four anti-sniping fields, all
non-negative integers / a flag, as in the Django `PositiveIntegerField`s. -/
structure ConfiguracionSubasta where
  antisniping_habilitado : Bool
  antisniping_umbral_segundos : Nat
  antisniping_extension_segundos : Nat
  antisniping_max_extensiones : Nat
deriving DecidableEq, Repr

/-- Side effects the audited operations can emit (WebSocket broadcasts of
`SubastaWebSocketService`, and the scheduler wake-up
`scheduler.notificar_puja`). -/
inductive Efecto where
  | notificarNuevaPuja
  | notificarPujaScheduler
  | notificarSubastaCancelada
  | notificarSubastaIniciada
  | notificarSubastaFinalizada
  | notificarSubastaActualizada
deriving DecidableEq, Repr

/-- `Subasta.estado_calculado` (`models.py` lines 95-111): the state
derived from the clock, read at instant `ahora`. -/
def estadoCalculado (ahora : Int) (s : Subasta) : Estado :=
  if s.estado = Estado.CANCELADA then
    Estado.CANCELADA
  else if ahora < s.fecha_hora_inicio then
    Estado.PROGRAMADA
  else if s.fecha_hora_inicio ≤ ahora ∧ ahora ≤ s.fecha_hora_fin then
    Estado.ACTIVA
  else
    Estado.FINALIZADA

/-- `Subasta.esta_activa` (`models.py`): the computed state is ACTIVA. -/
def estaActiva (ahora : Int) (s : Subasta) : Bool :=
  estadoCalculado ahora s = Estado.ACTIVA

/-- `Subasta.oferta_ganadora` (`models.py`):
`self.ofertas.order_by(-monto).first()` — the first bid of maximal amount
in storage order, `none` on an empty bid list. -/
def ofertaGanadora : List Oferta → Option Oferta
  | [] => none
  | o :: rest =>
    match ofertaGanadora rest with
    | none => some o
    | some m => if m.monto > o.monto then some m else some o

/-- `Subasta.precio_actual` (`models.py`): the top bid's amount, or the
base price when no bid exists. -/
def precioActual (s : Subasta) (ofertas : List Oferta) : Int :=
  match ofertaGanadora ofertas with
  | some o => o.monto
  | none => s.precio_base

/-- The distinct rejection messages `Subasta.puede_ofertar` can produce,
plus its OK answer. -/
inductive MensajePuja where
  | noActiva
  | montoBajo
  | ok
deriving DecidableEq, Repr

/-- `Subasta.puede_ofertar` (`models.py` lines 141-152): the pair
(valid?, message) for a proposed amount at instant `ahora`. -/
def puedeOfertar (ahora : Int) (s : Subasta) (ofertas : List Oferta)
    (monto : Int) : Bool × MensajePuja :=
  if ¬ estaActiva ahora s then
    (false, MensajePuja.noActiva)
  else if monto ≤ precioActual s ofertas then
    (false, MensajePuja.montoBajo)
  else
    (true, MensajePuja.ok)

/-- Fresh primary key for an inserted bid row: one past the largest key in
the table, as a database auto-increment column behaves. -/
def freshId (ofertas : List Oferta) : Nat :=
  (ofertas.map Oferta.id).foldr max 0 + 1

/-- `Oferta._actualizar_ganadora` (`models.py` lines 263-274), run right
after the row `selfId` was written: first clear `es_ganadora` on every
other bid of the auction, then, if the saved row is the bid of maximal
amount, set its flag. -/
def actualizarGanadora (ofertas : List Oferta) (selfId : Nat) :
    List Oferta :=
  let limpiado := ofertas.map fun o =>
    if o.id = selfId then o else { o with es_ganadora := false }
  match ofertaGanadora limpiado with
  | some m =>
    if m.id = selfId then
      limpiado.map fun o =>
        if o.id = selfId then { o with es_ganadora := true } else o
    else
      limpiado
  | none => limpiado

/-- `Oferta.save` (`models.py` lines 258-261): write the row (update when
the key exists, insert otherwise), then run `_actualizar_ganadora`. -/
def ofertaSave (ofertas : List Oferta) (o : Oferta) : List Oferta :=
  let base :=
    if ofertas.any fun x => x.id = o.id then
      ofertas.map fun x => if x.id = o.id then o else x
    else
      ofertas ++ [o]
  actualizarGanadora base o.id

/-- `OfertaViewSet.create` (`src/backend/subastas/views.py` lines
432-469), sequentialised by the `select_for_update` row lock: validate
with `puede_ofertar` under the lock; on rejection answer 400 with no
state change and no side effect; on acceptance insert the new bid (flag
initially false, recomputed by `Oferta.save`) and broadcast
`notificar_nueva_puja`.  The auction row itself is never written. -/
def ofertaViewSetCreate (ahora : Int) (s : Subasta) (ofertas : List Oferta)
    (monto : Int) : Option (List Oferta) × List Efecto :=
  if (puedeOfertar ahora s ofertas monto).1 then
    (some (ofertaSave ofertas
            { id := freshId ofertas, monto := monto, es_ganadora := false }),
     [Efecto.notificarNuevaPuja])
  else
    (none, [])

/-- A sequence of bid submissions against one auction, processed in lock
order by `OfertaViewSet.create`.  Each request is (instant, amount).
Returns the final bid table and the amounts of the accepted subsequence,
in acceptance order. -/
def procesarPujas (s : Subasta) :
    List Oferta → List (Int × Int) → List Oferta × List Int
  | ofertas, [] => (ofertas, [])
  | ofertas, (ahora, monto) :: resto =>
    match (ofertaViewSetCreate ahora s ofertas monto).1 with
    | some ofertas' =>
      let r := procesarPujas s ofertas' resto
      (r.1, monto :: r.2)
    | none => procesarPujas s ofertas resto

/-- The errors of `SubastaViewSet.cancelar` (`views.py` lines 200-236). -/
inductive CancelError where
  | yaCancelada
  | finalizada
deriving DecidableEq, Repr

/-- `SubastaViewSet.cancelar` (`views.py` lines 200-236): reject when the
declared state is already CANCELADA, reject when the computed state is
FINALIZADA, otherwise set the declared state to CANCELADA and broadcast
the cancellation.  Error paths change nothing and emit nothing. -/
def cancelar (ahora : Int) (s : Subasta) :
    Except CancelError (Subasta × List Efecto) :=
  if s.estado = Estado.CANCELADA then
    Except.error CancelError.yaCancelada
  else if estadoCalculado ahora s = Estado.FINALIZADA then
    Except.error CancelError.finalizada
  else
    Except.ok ({ s with estado := Estado.CANCELADA },
               [Efecto.notificarSubastaCancelada])

/-- `scheduler._activar_subasta` (`src/backend/subastas/scheduler.py`
lines 167-189): the guarded PROGRAMADA → ACTIVA write.  The
`objects.get(pk, estado='PROGRAMADA')` filter makes any other declared
state a `DoesNotExist` no-op.  Returns (stored row after the call,
whether it activated, emitted effects). -/
def activarSubasta (s : Subasta) : Subasta × Bool × List Efecto :=
  if s.estado = Estado.PROGRAMADA then
    ({ s with estado := Estado.ACTIVA }, true,
     [Efecto.notificarSubastaIniciada, Efecto.notificarSubastaActualizada])
  else
    (s, false, [])

/-- `scheduler._finalizar_subasta` (`scheduler.py` lines 258-277): the
guarded ACTIVA → FINALIZADA write; any other declared state is a
`DoesNotExist` no-op. -/
def finalizarSubasta (s : Subasta) : Subasta × List Efecto :=
  if s.estado = Estado.ACTIVA then
    ({ s with estado := Estado.FINALIZADA },
     [Efecto.notificarSubastaFinalizada, Efecto.notificarSubastaActualizada])
  else
    (s, [])

/-- `scheduler._verificar_y_extender` (`scheduler.py` lines 192-255): the
anti-sniping evaluation at instant `ahora`.  Mirrors the source order:
config flag, then the `objects.get(pk, estado='ACTIVA')` fetch (any other
declared state raises `DoesNotExist` → no-op), then the threshold check,
then the extension cap; otherwise push `fecha_hora_fin` out by the
configured extension and count it.  Returns (extended?, stored row). -/
def verificarYExtender (config : ConfiguracionSubasta) (ahora : Int)
    (s : Subasta) : Bool × Subasta :=
  if ¬ config.antisniping_habilitado then
    (false, s)
  else if s.estado ≠ Estado.ACTIVA then
    (false, s)
  else
    let segundosRestantes : Int := s.fecha_hora_fin - ahora
    if segundosRestantes ≥ (config.antisniping_umbral_segundos : Int) then
      (false, s)
    else if config.antisniping_max_extensiones > 0 ∧
        s.extensiones_realizadas ≥ config.antisniping_max_extensiones then
      (false, s)
    else
      (true,
       { s with
         fecha_hora_fin :=
           s.fecha_hora_fin + (config.antisniping_extension_segundos : Int),
         extensiones_realizadas := s.extensiones_realizadas + 1 })

/-- `scheduler._get_ids_pendientes` (`scheduler.py` lines 297-304): the
ids of the stored auctions whose declared state is PROGRAMADA or ACTIVA. -/
def getIdsPendientes (db : List (Nat × Subasta)) : List Nat :=
  (db.filter fun p =>
    p.2.estado = Estado.PROGRAMADA ∨ p.2.estado = Estado.ACTIVA).map Prod.fst

/-- `scheduler.inicializar_timers` (`scheduler.py` lines 280-304) as run
from the ASGI lifespan handler (`src/backend/subasta_frutas/asgi.py`):
spawn one `programar_timer_subasta` task per pending id.  At process
start the `_timers_activos` dedup set is empty, so the spawned task list
is exactly the pending id list. -/
def inicializarTimers (db : List (Nat × Subasta)) : List Nat :=
  getIdsPendientes db

/-- `SubastaCreateSerializer.validate_packing_detalle`
(`src/backend/subastas/serializers.py` lines 204-211), given the auctions
already stored for the targeted lot: the field validates (true) exactly
when no auction at all exists for the lot — the filter does not exclude
CANCELADA rows. -/
def validatePackingDetalle (subastasDelLote : List Subasta) : Bool :=
  !(subastasDelLote.any fun _ => true)

/-! ### Helper lemmas about the top-bid query -/

theorem ofertaGanadora_eq_none {l : List Oferta} :
    ofertaGanadora l = none ↔ l = [] := by
  cases l with
  | nil => simp [ofertaGanadora]
  | cons o rest =>
    constructor
    · intro h
      exfalso
      simp only [ofertaGanadora] at h
      cases hr : ofertaGanadora rest with
      | none => simp only [hr] at h; exact Option.noConfusion h
      | some m =>
        simp only [hr] at h
        by_cases hgt : m.monto > o.monto
        · rw [if_pos hgt] at h; exact Option.noConfusion h
        · rw [if_neg hgt] at h; exact Option.noConfusion h
    · intro h; exact absurd h (List.cons_ne_nil o rest)

theorem ofertaGanadora_mem {l : List Oferta} {m : Oferta}
    (h : ofertaGanadora l = some m) : m ∈ l := by
  induction l generalizing m with
  | nil => simp [ofertaGanadora] at h
  | cons o rest ih =>
    simp only [ofertaGanadora] at h
    cases hr : ofertaGanadora rest with
    | none =>
      simp only [hr] at h
      simp only [Option.some.injEq] at h
      simp [h]
    | some m' =>
      simp only [hr] at h
      by_cases hgt : m'.monto > o.monto
      · rw [if_pos hgt] at h
        simp only [Option.some.injEq] at h
        exact h ▸ List.mem_cons_of_mem _ (ih hr)
      · rw [if_neg hgt] at h
        simp only [Option.some.injEq] at h
        simp [h]

theorem ofertaGanadora_le {l : List Oferta} {m : Oferta}
    (h : ofertaGanadora l = some m) :
    ∀ x ∈ l, x.monto ≤ m.monto := by
  induction l generalizing m with
  | nil => intro x hx; simp at hx
  | cons o rest ih =>
    intro x hx
    simp only [ofertaGanadora] at h
    cases hr : ofertaGanadora rest with
    | none =>
      simp only [hr] at h
      simp only [Option.some.injEq] at h
      have hrest : rest = [] := ofertaGanadora_eq_none.mp hr
      subst hrest
      simp only [List.mem_singleton] at hx
      subst hx
      exact h ▸ le_refl _
    | some m' =>
      simp only [hr] at h
      rcases List.mem_cons.mp hx with rfl | hx'
      · by_cases hgt : m'.monto > x.monto
        · rw [if_pos hgt] at h
          simp only [Option.some.injEq] at h
          exact h ▸ le_of_lt hgt
        · rw [if_neg hgt] at h
          simp only [Option.some.injEq] at h
          exact h ▸ le_refl _
      · have hle := ih hr x hx'
        by_cases hgt : m'.monto > o.monto
        · rw [if_pos hgt] at h
          simp only [Option.some.injEq] at h
          exact h ▸ hle
        · rw [if_neg hgt] at h
          simp only [Option.some.injEq] at h
          exact h ▸ hle.trans (not_lt.mp hgt)

theorem precioActual_ge (s : Subasta) {l : List Oferta} :
    ∀ x ∈ l, x.monto ≤ precioActual s l := by
  intro x hx
  unfold precioActual
  cases h : ofertaGanadora l with
  | none =>
    rw [ofertaGanadora_eq_none.mp h] at hx
    simp at hx
  | some m => exact ofertaGanadora_le h x hx

theorem ofertaGanadora_append_strict {l : List Oferta} {y : Oferta}
    (h : ∀ x ∈ l, x.monto < y.monto) :
    ofertaGanadora (l ++ [y]) = some y := by
  induction l with
  | nil => simp [ofertaGanadora]
  | cons o rest ih =>
    have hr := ih fun x hx => h x (List.mem_cons_of_mem _ hx)
    have ho : o.monto < y.monto := h o (List.mem_cons_self _ _)
    simp only [List.cons_append, ofertaGanadora, List.append_eq]
    rw [hr]
    simp [ho]

/-! ### Helper lemmas about fresh keys and the save path -/

theorem id_le_foldr_max (l : List Oferta) :
    ∀ x ∈ l, x.id ≤ (l.map Oferta.id).foldr max 0 := by
  induction l with
  | nil => intro x hx; simp at hx
  | cons o rest ih =>
    intro x hx
    rcases List.mem_cons.mp hx with rfl | hx'
    · simp only [List.map_cons, List.foldr_cons]
      exact le_max_left _ _
    · simp only [List.map_cons, List.foldr_cons]
      exact le_trans (ih x hx') (le_max_right _ _)

theorem id_lt_freshId {l : List Oferta} : ∀ x ∈ l, x.id < freshId l := by
  intro x hx
  have := id_le_foldr_max l x hx
  unfold freshId
  omega

theorem puedeOfertar_true_iff (ahora : Int) (s : Subasta) (l : List Oferta)
    (monto : Int) :
    (puedeOfertar ahora s l monto).1 = true ↔
      estadoCalculado ahora s = Estado.ACTIVA ∧ precioActual s l < monto := by
  unfold puedeOfertar estaActiva
  by_cases h1 : estadoCalculado ahora s = Estado.ACTIVA
  · by_cases h2 : monto ≤ precioActual s l
    · simp [h1, h2]
    · simp [h1, h2]
      omega
  · simp [h1]

/-- Accepting a bid that strictly dominates every stored bid yields
exactly: every old bid with its flag cleared, then the new bid flagged. -/
theorem ofertaSave_fresh_strict {l : List Oferta} {monto : Int}
    (hmax : ∀ x ∈ l, x.monto < monto) :
    ofertaSave l { id := freshId l, monto := monto, es_ganadora := false } =
      (l.map fun o => { o with es_ganadora := false }) ++
        [{ id := freshId l, monto := monto, es_ganadora := true }] := by
  have hfresh : ∀ x ∈ l, x.id ≠ freshId l := fun x hx => (id_lt_freshId x hx).ne
  have hany : (l.any fun x =>
      x.id = (⟨freshId l, monto, false⟩ : Oferta).id) = false := by
    simp only [List.any_eq_false, decide_eq_true_eq]
    exact fun x hx => hfresh x hx
  have hlimp : ((l ++ [(⟨freshId l, monto, false⟩ : Oferta)]).map fun o =>
        if o.id = (⟨freshId l, monto, false⟩ : Oferta).id then o
        else { o with es_ganadora := false }) =
      (l.map fun o => { o with es_ganadora := false }) ++
        [(⟨freshId l, monto, false⟩ : Oferta)] := by
    rw [List.map_append]
    congr 1
    · exact List.map_congr_left fun x hx => by simp [hfresh x hx]
    · simp
  have hgan : ofertaGanadora
      ((l.map fun o => { o with es_ganadora := false }) ++
        [(⟨freshId l, monto, false⟩ : Oferta)]) =
      some (⟨freshId l, monto, false⟩ : Oferta) := by
    apply ofertaGanadora_append_strict
    intro x hx
    obtain ⟨y, hy, rfl⟩ := List.mem_map.mp hx
    exact hmax y hy
  unfold ofertaSave
  rw [if_neg (by simp [hany])]
  unfold actualizarGanadora
  dsimp only
  rw [hlimp]
  simp only [hgan, List.map_append, eq_self_iff_true, if_true]
  congr 1
  · rw [List.map_map]
    apply List.map_congr_left
    intro y hy
    simp [hfresh y hy]
  · simp

/-- Amounts stored after accepting a strictly dominating bid: the old
amounts followed by the new one. -/
theorem ofertaSave_fresh_map_monto {l : List Oferta} {monto : Int}
    (hmax : ∀ x ∈ l, x.monto < monto) :
    (ofertaSave l
        { id := freshId l, monto := monto, es_ganadora := false }).map
      Oferta.monto = l.map Oferta.monto ++ [monto] := by
  rw [ofertaSave_fresh_strict hmax]
  rw [List.map_append, List.map_map]
  congr 1

/-- Bids accepted later in a processed sequence strictly dominate every
amount stored before them; hence the accepted amounts form a strictly
increasing chain. -/
theorem procesarPujas_montos_lt (s : Subasta) :
    ∀ (reqs : List (Int × Int)) (l : List Oferta),
      (∀ a ∈ (procesarPujas s l reqs).2, ∀ mv ∈ l.map Oferta.monto, mv < a) ∧
        List.Chain' (· < ·) (procesarPujas s l reqs).2 := by
  intro reqs
  induction reqs with
  | nil => intro l; simp [procesarPujas]
  | cons req resto ih =>
    intro l
    obtain ⟨ahora, monto⟩ := req
    cases hp : (puedeOfertar ahora s l monto).1 with
    | false =>
      have hcre : (ofertaViewSetCreate ahora s l monto).1 = none := by
        simp [ofertaViewSetCreate, hp]
      have hstep : procesarPujas s l ((ahora, monto) :: resto) =
          procesarPujas s l resto := by
        simp only [procesarPujas, hcre]
      rw [hstep]
      exact ih l
    | true =>
      have hmax : ∀ mv ∈ l.map Oferta.monto, mv < monto := by
        intro mv hmv
        obtain ⟨x, hx, rfl⟩ := List.mem_map.mp hmv
        exact lt_of_le_of_lt (precioActual_ge s x hx)
          ((puedeOfertar_true_iff ahora s l monto).mp hp).2
      have hmax' : ∀ x ∈ l, x.monto < monto := fun x hx =>
        hmax x.monto (List.mem_map_of_mem _ hx)
      have hcre : (ofertaViewSetCreate ahora s l monto).1 =
          some (ofertaSave l ⟨freshId l, monto, false⟩) := by
        simp [ofertaViewSetCreate, hp]
      have hstep : procesarPujas s l ((ahora, monto) :: resto) =
          ((procesarPujas s (ofertaSave l ⟨freshId l, monto, false⟩) resto).1,
            monto ::
              (procesarPujas s (ofertaSave l ⟨freshId l, monto, false⟩)
                resto).2) := by
        simp only [procesarPujas, hcre]
      have hml' : (ofertaSave l ⟨freshId l, monto, false⟩).map Oferta.monto =
          l.map Oferta.monto ++ [monto] := ofertaSave_fresh_map_monto hmax'
      obtain ⟨ih1, ih2⟩ := ih (ofertaSave l ⟨freshId l, monto, false⟩)
      rw [hstep]
      constructor
      · intro a ha mv hmv
        rcases List.mem_cons.mp ha with rfl | ha'
        · exact hmax mv hmv
        · exact ih1 a ha' mv (by rw [hml']; exact List.mem_append_left _ hmv)
      · rw [List.chain'_cons']
        refine ⟨?_, ih2⟩
        intro b hb
        exact ih1 b (List.mem_of_mem_head? hb) monto
          (by rw [hml']; exact List.mem_append_right _ (by simp))

/-! ### C1 -/

/-- C1: a bid submission through `OfertaViewSet.create` is accepted iff
the computed state is ACTIVA and the amount strictly exceeds the current
price (top bid amount, or base price when no bid exists); an accepted
bid is persisted; and over any sequence of submissions on one auction the
accepted amounts form a strictly increasing subsequence. -/
theorem puja_aceptacion_reglas_y_cadena (ahora : Int) (s : Subasta)
    (l : List Oferta) (monto : Int) :
    ((ofertaViewSetCreate ahora s l monto).1.isSome ↔
        estadoCalculado ahora s = Estado.ACTIVA ∧
          precioActual s l < monto) ∧
      (∀ l', (ofertaViewSetCreate ahora s l monto).1 = some l' →
        monto ∈ l'.map Oferta.monto) ∧
      ∀ reqs : List (Int × Int),
        List.Chain' (· < ·) (procesarPujas s l reqs).2 := by
  refine ⟨?_, ?_, fun reqs => (procesarPujas_montos_lt s reqs l).2⟩
  · rw [← puedeOfertar_true_iff]
    cases hp : (puedeOfertar ahora s l monto).1 <;>
      simp [ofertaViewSetCreate, hp]
  · intro l' hl'
    cases hp : (puedeOfertar ahora s l monto).1 with
    | false => simp [ofertaViewSetCreate, hp] at hl'
    | true =>
      simp only [ofertaViewSetCreate, hp, if_true, Option.some.injEq] at hl'
      have hmax' : ∀ x ∈ l, x.monto < monto := fun x hx =>
        lt_of_le_of_lt (precioActual_ge s x hx)
          ((puedeOfertar_true_iff ahora s l monto).mp hp).2
      subst hl'
      rw [ofertaSave_fresh_map_monto hmax']
      simp

/-- Witness for C1: a concrete accepted bid is persisted. -/
theorem puja_aceptacion_reglas_y_cadena_witness :
    (12 : Int) ∈ ([⟨1, 12, true⟩] : List Oferta).map Oferta.monto :=
  (puja_aceptacion_reglas_y_cadena 50 ⟨0, 100, 10, Estado.ACTIVA, 0⟩ [] 12).2.1
    [⟨1, 12, true⟩] (by decide)

/-! ### C2 -/

/-- C2: after a bid accepted by `OfertaViewSet.create` is recorded,
exactly one bid of the auction carries `es_ganadora`, and the flagged bid
has the maximum amount stored so far. -/
theorem oferta_aceptada_ganadora_unica_max (ahora : Int) (s : Subasta)
    (l : List Oferta) (monto : Int) (l' : List Oferta)
    (h : (ofertaViewSetCreate ahora s l monto).1 = some l') :
    l'.countP (fun x => x.es_ganadora) = 1 ∧
      ∀ x ∈ l', x.es_ganadora = true → ∀ y ∈ l', y.monto ≤ x.monto := by
  cases hp : (puedeOfertar ahora s l monto).1 with
  | false => simp [ofertaViewSetCreate, hp] at h
  | true =>
    simp only [ofertaViewSetCreate, hp, if_true, Option.some.injEq] at h
    have hmax' : ∀ x ∈ l, x.monto < monto := fun x hx =>
      lt_of_le_of_lt (precioActual_ge s x hx)
        ((puedeOfertar_true_iff ahora s l monto).mp hp).2
    subst h
    rw [ofertaSave_fresh_strict hmax']
    constructor
    · rw [List.countP_append]
      have h0 : (l.map fun o => { o with es_ganadora := false }).countP
          (fun x => x.es_ganadora) = 0 := by
        rw [List.countP_eq_zero]
        intro a ha
        obtain ⟨z, hz, rfl⟩ := List.mem_map.mp ha
        simp
      rw [h0]
      simp [List.countP_cons]
    · intro x hx hxf y hy
      rcases List.mem_append.mp hx with hx' | hx'
      · obtain ⟨z, hz, rfl⟩ := List.mem_map.mp hx'
        simp at hxf
      · have hx'' := List.mem_singleton.mp hx'
        subst hx''
        rcases List.mem_append.mp hy with hy' | hy'
        · obtain ⟨z, hz, rfl⟩ := List.mem_map.mp hy'
          exact le_of_lt (hmax' z hz)
        · rw [List.mem_singleton.mp hy']

/-- Witness for C2 at a concrete accepted bid. -/
theorem oferta_aceptada_ganadora_unica_max_witness :
    ([⟨1, 12, true⟩] : List Oferta).countP (fun x => x.es_ganadora) = 1 :=
  (oferta_aceptada_ganadora_unica_max 50 ⟨0, 100, 10, Estado.ACTIVA, 0⟩ [] 12
    [⟨1, 12, true⟩] (by decide)).1

/-! ### C3 -/

/-- Counterexample to C3 as stated: with anti-sniping enabled,
remaining time 60s strictly below the 120s threshold and no extension
applied yet (cap 2), an auction whose declared state is PROGRAMADA is
nevertheless not extended — `_verificar_y_extender` additionally requires
the declared state to be ACTIVA. -/
theorem verificarYExtender_requiere_activa_cex :
    (⟨true, 120, 120, 2⟩ : ConfiguracionSubasta).antisniping_habilitado
        = true ∧
      (⟨0, 60, 10, Estado.PROGRAMADA, 0⟩ : Subasta).fecha_hora_fin - 0 <
        ((⟨true, 120, 120, 2⟩ :
          ConfiguracionSubasta).antisniping_umbral_segundos : Int) ∧
      (⟨0, 60, 10, Estado.PROGRAMADA, 0⟩ : Subasta).extensiones_realizadas <
        (⟨true, 120, 120, 2⟩ :
          ConfiguracionSubasta).antisniping_max_extensiones ∧
      (verificarYExtender ⟨true, 120, 120, 2⟩ 0
          ⟨0, 60, 10, Estado.PROGRAMADA, 0⟩).1 = false ∧
      (verificarYExtender ⟨true, 120, 120, 2⟩ 0
          ⟨0, 60, 10, Estado.PROGRAMADA, 0⟩).2 =
        ⟨0, 60, 10, Estado.PROGRAMADA, 0⟩ := by
  decide

/-- C3 amended: `_verificar_y_extender` extends iff the config is
enabled, the declared state is ACTIVA, the remaining time is strictly
below the threshold, and the extension cap is 0 (unlimited) or not yet
reached; when it extends, `fecha_hora_fin` grows by exactly the
configured extension and `extensiones_realizadas` by exactly 1, and
otherwise the row is unchanged. -/
theorem verificarYExtender_caracterizacion (config : ConfiguracionSubasta)
    (ahora : Int) (s : Subasta) :
    ((verificarYExtender config ahora s).1 = true ↔
        config.antisniping_habilitado = true ∧ s.estado = Estado.ACTIVA ∧
          s.fecha_hora_fin - ahora < (config.antisniping_umbral_segundos : Int) ∧
          (config.antisniping_max_extensiones = 0 ∨
            s.extensiones_realizadas < config.antisniping_max_extensiones)) ∧
      (verificarYExtender config ahora s).2 =
        (if (verificarYExtender config ahora s).1 then
          { s with
            fecha_hora_fin := s.fecha_hora_fin +
              (config.antisniping_extension_segundos : Int),
            extensiones_realizadas := s.extensiones_realizadas + 1 }
        else s) := by
  by_cases h1 : config.antisniping_habilitado = true
  case neg =>
    have hv : verificarYExtender config ahora s = (false, s) := by
      simp [verificarYExtender, h1]
    rw [hv]
    simp [h1]
  case pos =>
    by_cases h2 : s.estado = Estado.ACTIVA
    case neg =>
      have hv : verificarYExtender config ahora s = (false, s) := by
        simp [verificarYExtender, h1, h2]
      rw [hv]
      simp [h1, h2]
    case pos =>
      by_cases h3 : (config.antisniping_umbral_segundos : Int) ≤
          s.fecha_hora_fin - ahora
      case pos =>
        have hv : verificarYExtender config ahora s = (false, s) := by
          simp [verificarYExtender, h1, h2, h3]
        have h3' : ¬ (s.fecha_hora_fin - ahora <
            (config.antisniping_umbral_segundos : Int)) := not_lt.mpr h3
        rw [hv]
        simp [h1, h2, h3']
      case neg =>
        by_cases h4 : 0 < config.antisniping_max_extensiones ∧
            config.antisniping_max_extensiones ≤ s.extensiones_realizadas
        case pos =>
          have hv : verificarYExtender config ahora s = (false, s) := by
            simp [verificarYExtender, h1, h2, h3, h4]
          have hd : ¬ (config.antisniping_max_extensiones = 0 ∨
              s.extensiones_realizadas <
                config.antisniping_max_extensiones) := by omega
          rw [hv]
          simp [h1, h2, hd]
        case neg =>
          have hv : verificarYExtender config ahora s =
              (true,
                { s with
                  fecha_hora_fin := s.fecha_hora_fin +
                    (config.antisniping_extension_segundos : Int),
                  extensiones_realizadas :=
                    s.extensiones_realizadas + 1 }) := by
            simp [verificarYExtender, h1, h2, h3, h4]
          have hd : config.antisniping_max_extensiones = 0 ∨
              s.extensiones_realizadas <
                config.antisniping_max_extensiones := by omega
          rw [hv]
          simp [h1, h2, not_le.mp h3, hd]

/-! ### C4 -/

/-- C4 fails on the code: the accepting path of `OfertaViewSet.create`
emits only the WebSocket `notificar_nueva_puja` broadcast; no code path
of the bid-acceptance operation ever invokes `scheduler.notificar_puja`
(the anti-sniping evaluation plus clock wake-up), although
`scheduler.py`'s own documentation says views.py calls it on every bid.
Shown at a concrete accepted bid, and for every input. -/
theorem ofertaCreate_sin_senal_scheduler :
    ((ofertaViewSetCreate 50 ⟨0, 100, 10, Estado.ACTIVA, 0⟩ [] 12).1.isSome
        = true ∧
      (ofertaViewSetCreate 50 ⟨0, 100, 10, Estado.ACTIVA, 0⟩ [] 12).2 =
        [Efecto.notificarNuevaPuja]) ∧
      ∀ (ahora : Int) (s : Subasta) (l : List Oferta) (monto : Int),
        Efecto.notificarPujaScheduler ∉
          (ofertaViewSetCreate ahora s l monto).2 := by
  refine ⟨by decide, ?_⟩
  intro ahora s l monto
  unfold ofertaViewSetCreate
  split_ifs <;> simp

/-! ### C5 -/

/-- C5: the computed state is CANCELADA when the declared state is
CANCELADA, and otherwise — whatever the declared state — PROGRAMADA
before the start, ACTIVA inside the window (bounds included), and
FINALIZADA after the end. -/
theorem estadoCalculado_casos (ahora : Int) (s : Subasta) :
    (s.estado = Estado.CANCELADA →
        estadoCalculado ahora s = Estado.CANCELADA) ∧
      (s.estado ≠ Estado.CANCELADA → ahora < s.fecha_hora_inicio →
        estadoCalculado ahora s = Estado.PROGRAMADA) ∧
      (s.estado ≠ Estado.CANCELADA → s.fecha_hora_inicio ≤ ahora →
        ahora ≤ s.fecha_hora_fin →
        estadoCalculado ahora s = Estado.ACTIVA) ∧
      (s.estado ≠ Estado.CANCELADA → s.fecha_hora_inicio ≤ ahora →
        s.fecha_hora_fin < ahora →
        estadoCalculado ahora s = Estado.FINALIZADA) := by
  refine ⟨fun h => ?_, fun h h1 => ?_, fun h h1 h2 => ?_,
    fun h h1 h2 => ?_⟩ <;>
      simp only [estadoCalculado] <;> split_ifs <;>
        first | rfl | tauto | omega

/-- Witness for C5 at a concrete instant inside the window. -/
theorem estadoCalculado_casos_witness :
    estadoCalculado 50 ⟨0, 100, 10, Estado.PROGRAMADA, 0⟩ = Estado.ACTIVA :=
  (estadoCalculado_casos 50 ⟨0, 100, 10, Estado.PROGRAMADA, 0⟩).2.2.1
    (by decide) (by decide) (by decide)

/-! ### C6 -/

/-- C6: cancellation errors (changing nothing and emitting nothing) when
the declared state is already CANCELADA, errors when the computed state
is FINALIZADA, and otherwise sets the declared state to CANCELADA; an
already-cancelled auction can never produce a second cancellation
broadcast. -/
theorem cancelar_caracterizacion (ahora : Int) (s : Subasta) :
    (s.estado = Estado.CANCELADA →
        cancelar ahora s = Except.error CancelError.yaCancelada) ∧
      (s.estado ≠ Estado.CANCELADA →
        estadoCalculado ahora s = Estado.FINALIZADA →
        cancelar ahora s = Except.error CancelError.finalizada) ∧
      (s.estado ≠ Estado.CANCELADA →
        estadoCalculado ahora s ≠ Estado.FINALIZADA →
        cancelar ahora s =
          Except.ok ({ s with estado := Estado.CANCELADA },
            [Efecto.notificarSubastaCancelada])) := by
  refine ⟨fun h => ?_, fun h h2 => ?_, fun h h2 => ?_⟩ <;>
    simp [cancelar, h] <;> simp [h2]

/-- Witness for C6: a concrete running auction is cancelled. -/
theorem cancelar_caracterizacion_witness :
    cancelar 50 ⟨0, 100, 10, Estado.ACTIVA, 0⟩ =
      Except.ok (⟨0, 100, 10, Estado.CANCELADA, 0⟩,
        [Efecto.notificarSubastaCancelada]) :=
  (cancelar_caracterizacion 50 ⟨0, 100, 10, Estado.ACTIVA, 0⟩).2.2
    (by decide) (by decide)

/-! ### C7 -/

/-- C7: the clock's declared-state writes are guarded — a CANCELADA or
FINALIZADA auction is never touched by activation or finalization;
activation only moves PROGRAMADA to ACTIVA and finalization only ACTIVA
to FINALIZADA; after a cancel lands, finalization is a no-op; after a
finalization lands (necessarily at or past `fecha_hora_fin`), a strictly
later cancel errors; and finalizing twice never emits the finished
broadcast a second time. -/
theorem clock_escrituras_guardadas (s : Subasta) (t0 t1 : Int) :
    ((s.estado = Estado.CANCELADA ∨ s.estado = Estado.FINALIZADA) →
        activarSubasta s = (s, false, []) ∧ finalizarSubasta s = (s, [])) ∧
      ((activarSubasta s).1 ≠ s →
        s.estado = Estado.PROGRAMADA ∧
          (activarSubasta s).1.estado = Estado.ACTIVA) ∧
      ((finalizarSubasta s).1 ≠ s →
        s.estado = Estado.ACTIVA ∧
          (finalizarSubasta s).1.estado = Estado.FINALIZADA) ∧
      (s.estado = Estado.CANCELADA → finalizarSubasta s = (s, [])) ∧
      (s.estado = Estado.ACTIVA →
        s.fecha_hora_inicio < s.fecha_hora_fin →
        s.fecha_hora_fin ≤ t0 → t0 < t1 →
        cancelar t1 (finalizarSubasta s).1 =
          Except.error CancelError.finalizada) ∧
      (finalizarSubasta (finalizarSubasta s).1).2 = [] := by
  refine ⟨?_, ?_, ?_, ?_, ?_, ?_⟩
  · intro h
    rcases h with h | h <;> simp [activarSubasta, finalizarSubasta, h]
  · intro h
    by_cases hp : s.estado = Estado.PROGRAMADA
    · simp [activarSubasta, hp]
    · exact absurd (by simp [activarSubasta, hp]) h
  · intro h
    by_cases ha : s.estado = Estado.ACTIVA
    · simp [finalizarSubasta, ha]
    · exact absurd (by simp [finalizarSubasta, ha]) h
  · intro h
    simp [finalizarSubasta, h]
  · intro ha hwin ht0 ht1
    have hf : (finalizarSubasta s).1 = { s with estado := Estado.FINALIZADA } := by
      simp [finalizarSubasta, ha]
    rw [hf]
    have hcalc : estadoCalculado t1 { s with estado := Estado.FINALIZADA } =
        Estado.FINALIZADA := by
      simp only [estadoCalculado]
      rw [if_neg (by simp), if_neg (by simp; omega), if_neg (by simp; omega)]
    simp [cancelar, hcalc]
  · by_cases ha : s.estado = Estado.ACTIVA <;>
      simp [finalizarSubasta, ha]

/-- Witness for C7: finalization at the deadline beats a cancel arriving
one second later. -/
theorem clock_escrituras_guardadas_witness :
    cancelar 101 (finalizarSubasta ⟨0, 100, 10, Estado.ACTIVA, 0⟩).1 =
      Except.error CancelError.finalizada :=
  (clock_escrituras_guardadas ⟨0, 100, 10, Estado.ACTIVA, 0⟩ 100 101).2.2.2.2.1
    (by decide) (by decide) (by decide) (by decide)

/-! ### C8 -/

/-- C8: at process start the bootstrapper spawns one clock task exactly
for each stored auction whose declared state is PROGRAMADA or ACTIVA —
membership characterises the spawned set, and with distinct primary keys
no auction gets two tasks. -/
theorem inicializarTimers_pendientes (db : List (Nat × Subasta))
    (hnd : (db.map Prod.fst).Nodup) :
    (∀ i : Nat, i ∈ inicializarTimers db ↔
        ∃ s : Subasta, (i, s) ∈ db ∧
          (s.estado = Estado.PROGRAMADA ∨ s.estado = Estado.ACTIVA)) ∧
      (inicializarTimers db).Nodup := by
  constructor
  · intro i
    unfold inicializarTimers getIdsPendientes
    simp only [List.mem_map, List.mem_filter]
    constructor
    · rintro ⟨⟨j, s⟩, ⟨hmem, hcond⟩, rfl⟩
      exact ⟨s, hmem, by simpa using hcond⟩
    · rintro ⟨s, hmem, hcond⟩
      exact ⟨(i, s), ⟨hmem, by simpa using hcond⟩, rfl⟩
  · unfold inicializarTimers getIdsPendientes
    exact hnd.sublist ((List.filter_sublist db).map Prod.fst)

/-- Witness for C8: a PROGRAMADA auction gets a task, a FINALIZADA one
does not. -/
theorem inicializarTimers_pendientes_witness :
    1 ∈ inicializarTimers
        [(1, ⟨0, 100, 10, Estado.PROGRAMADA, 0⟩),
          (2, ⟨0, 100, 10, Estado.FINALIZADA, 0⟩)] ∧
      ¬ 2 ∈ inicializarTimers
        [(1, ⟨0, 100, 10, Estado.PROGRAMADA, 0⟩),
          (2, ⟨0, 100, 10, Estado.FINALIZADA, 0⟩)] := by
  constructor
  · exact ((inicializarTimers_pendientes
      [(1, ⟨0, 100, 10, Estado.PROGRAMADA, 0⟩),
        (2, ⟨0, 100, 10, Estado.FINALIZADA, 0⟩)] (by decide)).1 1).mpr
      ⟨⟨0, 100, 10, Estado.PROGRAMADA, 0⟩, by decide, Or.inl rfl⟩
  · intro h
    obtain ⟨s, hmem, hcond⟩ := ((inicializarTimers_pendientes
      [(1, ⟨0, 100, 10, Estado.PROGRAMADA, 0⟩),
        (2, ⟨0, 100, 10, Estado.FINALIZADA, 0⟩)] (by decide)).1 2).mp h
    rcases List.mem_cons.mp hmem with h2 | h2
    · have h21 : (2 : Nat) = 1 := congrArg Prod.fst h2
      exact absurd h21 (by decide)
    · have : s = ⟨0, 100, 10, Estado.FINALIZADA, 0⟩ := by
        simpa using h2
      subst this
      rcases hcond with hc | hc <;> exact Estado.noConfusion hc

/-! ### C9 -/

/-- C9 fails on the code: `validate_packing_detalle` rejects auction
creation whenever any auction row exists for the lot, even when every
existing auction is CANCELADA — although the model's own comment
(`models.py` lines 30-31) says the foreign key was chosen precisely to
allow a new auction after a cancelled one. -/
theorem validatePackingDetalle_rechaza_canceladas :
    (∀ s ∈ [(⟨0, 100, 10, Estado.CANCELADA, 0⟩ : Subasta)],
        s.estado = Estado.CANCELADA) ∧
      validatePackingDetalle [⟨0, 100, 10, Estado.CANCELADA, 0⟩] = false ∧
      validatePackingDetalle [] = true := by
  decide

/-! ### Counting helpers for the winner-flag invariant -/

theorem countP_le_of_imp {α : Type} (p q : α → Bool) (l : List α)
    (h : ∀ a ∈ l, p a = true → q a = true) :
    l.countP p ≤ l.countP q := by
  induction l with
  | nil => simp
  | cons a rest ih =>
    simp only [List.countP_cons]
    have hrest := ih fun x hx => h x (List.mem_cons_of_mem _ hx)
    by_cases hp : p a = true
    · rw [if_pos hp, if_pos (h a (List.mem_cons_self _ _) hp)]
      omega
    · rw [if_neg hp]
      split <;> omega

theorem countP_id_eq_count (b : List Oferta) (i : Nat) :
    b.countP (fun x => x.id = i) = (b.map Oferta.id).count i := by
  induction b with
  | nil => simp
  | cons o rest ih =>
    simp only [List.countP_cons, List.map_cons, List.count_cons, ih]
    by_cases h : o.id = i <;> simp [h]

/-- After `_actualizar_ganadora` for row `i`, only rows with key `i` can
carry the winning flag. -/
theorem actualizarGanadora_flag_id (b : List Oferta) (i : Nat) :
    ∀ x ∈ actualizarGanadora b i, x.es_ganadora = true → x.id = i := by
  have hlimp : ∀ z ∈ (b.map fun o =>
      if o.id = i then o else { o with es_ganadora := false }),
      z.es_ganadora = true → z.id = i := by
    intro z hz hzf
    obtain ⟨w, hw, rfl⟩ := List.mem_map.mp hz
    by_cases hw' : w.id = i
    · simp [hw']
    · simp [hw'] at hzf
  intro x hx hflag
  unfold actualizarGanadora at hx
  dsimp only at hx
  cases hg : ofertaGanadora (b.map fun o =>
      if o.id = i then o else { o with es_ganadora := false }) with
  | none =>
    simp only [hg] at hx
    exact hlimp x hx hflag
  | some m =>
    simp only [hg] at hx
    by_cases hm : m.id = i
    · rw [if_pos hm] at hx
      obtain ⟨z, hz, rfl⟩ := List.mem_map.mp hx
      by_cases hz' : z.id = i
      · simp [hz']
      · rw [if_neg hz'] at hflag
        exact absurd (hlimp z hz hflag) hz'
    · rw [if_neg hm] at hx
      exact hlimp x hx hflag

/-- `_actualizar_ganadora` only toggles flags: the stored keys are
untouched. -/
theorem actualizarGanadora_map_id (b : List Oferta) (i : Nat) :
    (actualizarGanadora b i).map Oferta.id = b.map Oferta.id := by
  have hclean : ((b.map fun o => if o.id = i then o
      else { o with es_ganadora := false }).map Oferta.id) =
      b.map Oferta.id := by
    rw [List.map_map]
    apply List.map_congr_left
    intro x _
    by_cases hx : x.id = i <;> simp [hx]
  unfold actualizarGanadora
  dsimp only
  cases hg : ofertaGanadora (b.map fun o =>
      if o.id = i then o else { o with es_ganadora := false }) with
  | none => simpa using hclean
  | some m =>
    simp only [hg]
    by_cases hm : m.id = i
    · rw [if_pos hm, List.map_map]
      have hpt : ∀ z ∈ (b.map fun o =>
          if o.id = i then o else { o with es_ganadora := false }),
          (Oferta.id ∘ fun o =>
            if o.id = i then { o with es_ganadora := true } else o) z =
            Oferta.id z := by
        intro z _
        by_cases hz : z.id = i <;> simp [hz]
      rw [List.map_congr_left hpt]
      exact hclean
    · rw [if_neg hm]
      exact hclean

/-! ### C10 -/

/-- Counterexample to C10 as stated: re-saving the currently flagged bid
(key 1) with its amount lowered below bid 2's keeps its winning flag —
the clearing step excludes the saved row itself — so one bid stays
flagged (and it is not the maximum), not zero. -/
theorem ofertaSave_flag_persistente_cex :
    (ofertaSave [⟨1, 30, true⟩, ⟨2, 20, false⟩] ⟨1, 10, true⟩).countP
        (fun x => x.es_ganadora) = 1 ∧
      ∃ x ∈ ofertaSave [⟨1, 30, true⟩, ⟨2, 20, false⟩] ⟨1, 10, true⟩,
        x.es_ganadora = true ∧
          ∃ y ∈ ofertaSave [⟨1, 30, true⟩, ⟨2, 20, false⟩] ⟨1, 10, true⟩,
            x.monto < y.monto := by
  decide

/-- C10 amended: after any save of a bid row into a table with distinct
keys, at most one bid of the auction carries the winning flag; and if
the saved row's flag was false before the save (as for every newly
created bid) while some other stored bid strictly exceeds its amount,
the previous winner's flag is cleared with no replacement — zero bids
stay flagged. -/
theorem ofertaSave_ganadora_acotada (l : List Oferta) (o : Oferta)
    (hnd : (l.map Oferta.id).Nodup) :
    (ofertaSave l o).countP (fun x => x.es_ganadora) ≤ 1 ∧
      (o.es_ganadora = false →
        (∃ y ∈ l, y.id ≠ o.id ∧ o.monto < y.monto) →
        (ofertaSave l o).countP (fun x => x.es_ganadora) = 0) := by
  have hcount1 : ∀ b : List Oferta, (b.map Oferta.id).count o.id ≤ 1 →
      (actualizarGanadora b o.id).countP (fun x => x.es_ganadora) ≤ 1 := by
    intro b hb
    calc (actualizarGanadora b o.id).countP (fun x => x.es_ganadora)
        ≤ (actualizarGanadora b o.id).countP (fun x => x.id = o.id) := by
          apply countP_le_of_imp
          intro a ha hflag
          simpa using actualizarGanadora_flag_id b o.id a ha hflag
      _ = ((actualizarGanadora b o.id).map Oferta.id).count o.id :=
          countP_id_eq_count _ _
      _ = (b.map Oferta.id).count o.id := by rw [actualizarGanadora_map_id]
      _ ≤ 1 := hb
  have hzero : ∀ b : List Oferta, (∀ x ∈ b, x.id = o.id → x = o) →
      (∃ y ∈ b, y.id ≠ o.id ∧ o.monto < y.monto) →
      o.es_ganadora = false →
      (actualizarGanadora b o.id).countP (fun x => x.es_ganadora) = 0 := by
    intro b hself hy hof
    obtain ⟨y', hy'mem, hy'ne, hy'lt⟩ := hy
    have hflags : ∀ z ∈ (b.map fun x =>
        if x.id = o.id then x else { x with es_ganadora := false }),
        z.es_ganadora = false := by
      intro z hz
      obtain ⟨w, hw, rfl⟩ := List.mem_map.mp hz
      by_cases hw' : w.id = o.id
      · rw [if_pos hw', hself w hw hw']
        exact hof
      · simp [hw']
    have hyL : ∃ z ∈ (b.map fun x =>
        if x.id = o.id then x else { x with es_ganadora := false }),
        o.monto < z.monto := by
      refine ⟨(fun x => if x.id = o.id then x
        else { x with es_ganadora := false }) y',
        List.mem_map_of_mem _ hy'mem, ?_⟩
      simpa [hy'ne] using hy'lt
    obtain ⟨z0, hz0, hz0lt⟩ := hyL
    cases hg : ofertaGanadora (b.map fun x =>
        if x.id = o.id then x else { x with es_ganadora := false }) with
    | none =>
      rw [ofertaGanadora_eq_none.mp hg] at hz0
      simp at hz0
    | some m =>
      have hmmem := ofertaGanadora_mem hg
      have hmge := ofertaGanadora_le hg
      have hmne : m.id ≠ o.id := by
        intro hmid
        obtain ⟨w, hw, hwm⟩ := List.mem_map.mp hmmem
        have hwid : w.id = o.id := by
          have hidm : m.id = w.id := by
            rw [← hwm]
            by_cases h : w.id = o.id <;> simp [h]
          rw [← hidm, hmid]
        have hwo : w = o := hself w hw hwid
        have hmo : m = o := by
          rw [← hwm, hwo]
          simp
        have hcon := hmge z0 hz0
        rw [hmo] at hcon
        omega
      have hres : actualizarGanadora b o.id = (b.map fun x =>
          if x.id = o.id then x else { x with es_ganadora := false }) := by
        unfold actualizarGanadora
        dsimp only
        simp only [hg]
        rw [if_neg hmne]
      rw [hres, List.countP_eq_zero]
      intro a ha
      simp [hflags a ha]
  cases hany : l.any fun x => x.id = o.id with
  | false =>
    have hnomem : ∀ x ∈ l, x.id ≠ o.id := by
      simpa using hany
    have hbase : ofertaSave l o = actualizarGanadora (l ++ [o]) o.id := by
      unfold ofertaSave
      rw [if_neg (by simp [hany])]
    have hcnt : ((l ++ [o]).map Oferta.id).count o.id ≤ 1 := by
      have h0 : (l.map Oferta.id).count o.id = 0 := by
        rw [List.count_eq_zero]
        simp only [List.mem_map]
        rintro ⟨x, hx, hxid⟩
        exact hnomem x hx hxid
      simp [List.count_append, h0]
    have hself : ∀ x ∈ l ++ [o], x.id = o.id → x = o := by
      intro x hx hxid
      rcases List.mem_append.mp hx with hx' | hx'
      · exact absurd hxid (hnomem x hx')
      · exact List.mem_singleton.mp hx'
    refine ⟨hbase ▸ hcount1 _ hcnt, fun hof hy => ?_⟩
    obtain ⟨y, hy, hyne, hylt⟩ := hy
    exact hbase ▸ hzero _ hself
      ⟨y, List.mem_append_left _ hy, hyne, hylt⟩ hof
  | true =>
    have hbase : ofertaSave l o =
        actualizarGanadora (l.map fun x =>
          if x.id = o.id then o else x) o.id := by
      unfold ofertaSave
      rw [if_pos (by simp [hany])]
    have hids : ((l.map fun x => if x.id = o.id then o else x).map
        Oferta.id) = l.map Oferta.id := by
      rw [List.map_map]
      apply List.map_congr_left
      intro x _
      by_cases hx : x.id = o.id <;> simp [hx]
    have hcnt : (((l.map fun x => if x.id = o.id then o else x).map
        Oferta.id).count o.id) ≤ 1 := by
      rw [hids]
      exact List.nodup_iff_count_le_one.mp hnd o.id
    have hself : ∀ x ∈ (l.map fun x => if x.id = o.id then o else x),
        x.id = o.id → x = o := by
      intro x hx hxid
      obtain ⟨w, hw, rfl⟩ := List.mem_map.mp hx
      by_cases hw' : w.id = o.id
      · simp [hw']
      · rw [if_neg hw'] at hxid ⊢
        exact absurd hxid hw'
    refine ⟨hbase ▸ hcount1 _ hcnt, fun hof hy => ?_⟩
    obtain ⟨y, hy, hyne, hylt⟩ := hy
    have hymem : y ∈ (l.map fun x => if x.id = o.id then o else x) := by
      have := List.mem_map_of_mem
        (fun x => if x.id = o.id then o else x) hy
      simpa [hyne] using this
    exact hbase ▸ hzero _ hself ⟨y, hymem, hyne, hylt⟩ hof

/-- Witness for C10: saving a fresh low bid clears the old winner and
flags nothing. -/
theorem ofertaSave_ganadora_acotada_witness :
    (ofertaSave [⟨1, 30, true⟩, ⟨2, 20, false⟩] ⟨3, 5, false⟩).countP
        (fun x => x.es_ganadora) = 0 :=
  (ofertaSave_ganadora_acotada [⟨1, 30, true⟩, ⟨2, 20, false⟩] ⟨3, 5, false⟩
    (by decide)).2 rfl ⟨⟨1, 30, true⟩, by decide, by decide, by decide⟩

end SubastaFruta
